import Mathlib

/-!
Verification of the FitTrack fitness-tracking application.

This file gives a shallow embedding of the parts of the application that the
verified properties talk about:

* the record types of `src/lib/supabase.ts` (UserProfile, FoodItem, MealLog,
  WeightLog, Measurement), with JS `number` values embedded as `ℚ`;
* the pure recommendation routine `analyzeAndRecommend` of the
  AIRecommendation component;
* the per-day calorie aggregation of the ProgressCharts component
  (`loadProgressData`);
* the dashboard date-range filter of `loadDashboardData`;
* the submit/delete handlers of MealLogging, WeightTracking and
  MeasurementTracking, as state transformers parameterised by the backend
  response;
* the row-level-security policies of the migration, as guarded insert/select
  operations on a list-of-rows store.

The recommendation text is modelled at the granularity of its constituent
messages: `analyzeAndRecommend` in the source pushes template strings onto an
array and joins them; here each template is a constructor of `RecMsg`
carrying the interpolated numbers, and the function returns the list of
messages in push order.  JS float literals 0.8 and 1.2 are embedded as the
exact rationals 4/5 and 6/5.
-/

namespace FitTrack

/-- Fitness goal, column `users_profiles.goal_type`, constrained by the
schema to one of these three values. -/
inductive GoalType
  | weight_loss
  | muscle_gain
  | maintenance
  deriving DecidableEq

/-- Meal category, column `meal_logs.category`. -/
inductive MealCategory
  | breakfast
  | lunch
  | dinner
  | snack
  deriving DecidableEq

/-- The `UserProfile` interface of `src/lib/supabase.ts`. -/
structure UserProfile where
  id : String
  name : String
  goal_type : GoalType
  daily_calorie_target : ℚ
  created_at : String
  updated_at : String
  deriving DecidableEq

/-- The `FoodItem` interface of `src/lib/supabase.ts`. -/
structure FoodItem where
  id : String
  name : String
  calories : ℚ
  protein : ℚ
  carbs : ℚ
  fats : ℚ
  barcode : Option String
  created_at : String
  deriving DecidableEq

/-- The `MealLog` interface of `src/lib/supabase.ts`; `food_items` is the
optional joined food row. -/
structure MealLog where
  id : String
  user_id : String
  food_id : String
  servings : ℚ
  category : MealCategory
  logged_at : String
  created_at : String
  food_items : Option FoodItem
  deriving DecidableEq

/-- The `WeightLog` interface of `src/lib/supabase.ts`. -/
structure WeightLog where
  id : String
  user_id : String
  weight : ℚ
  date : String
  created_at : String
  deriving DecidableEq

/-- The day part of an ISO timestamp: `logged_at.split('T')[0]` in the
source, i.e. the prefix of the string before its first `T` (the whole
string when no `T` occurs), computed on the character list. -/
def dateOf (s : String) : String :=
  String.mk (s.data.takeWhile (fun c => c ≠ 'T'))

/-- The running totals built by the `meals.forEach` loop of
`analyzeAndRecommend` (part_002 lines 511-525): four numeric totals and the
set of logged days.  The JS `Set<string>` is modelled as a duplicate-free
list in insertion order. -/
structure Aggregates where
  totalCalories : ℚ
  totalProtein : ℚ
  totalCarbs : ℚ
  totalFats : ℚ
  daysLogged : List String
  deriving DecidableEq

/-- JS `Set.add`: appends the day unless already present. -/
def addDay (days : List String) (d : String) : List String :=
  if d ∈ days then days else days ++ [d]

/-- One iteration of the `meals.forEach` loop: a meal whose `food_items`
join is absent changes nothing. -/
def aggStep (a : Aggregates) (m : MealLog) : Aggregates :=
  match m.food_items with
  | some f =>
      { totalCalories := a.totalCalories + f.calories * m.servings
        totalProtein := a.totalProtein + f.protein * m.servings
        totalCarbs := a.totalCarbs + f.carbs * m.servings
        totalFats := a.totalFats + f.fats * m.servings
        daysLogged := addDay a.daysLogged (dateOf m.logged_at) }
  | none => a

/-- The full pass over the meal list. -/
def aggregate (ms : List MealLog) : Aggregates :=
  ms.foldl aggStep ⟨0, 0, 0, 0, []⟩

/-- The divisor `Math.max(daysLogged.size, 1)` used by both averages. -/
def daysDivisor (ms : List MealLog) : ℚ :=
  ((max (aggregate ms).daysLogged.length 1 : ℕ) : ℚ)

/-- Source line `avgDailyCalories = totalCalories / Math.max(daysLogged.size, 1)`. -/
def avgDailyCalories (ms : List MealLog) : ℚ :=
  (aggregate ms).totalCalories / daysDivisor ms

/-- Source line `avgProtein = totalProtein / Math.max(daysLogged.size, 1)`. -/
def avgDailyProtein (ms : List MealLog) : ℚ :=
  (aggregate ms).totalProtein / daysDivisor ms

/-- One message of the recommendation text.  Each constructor stands for one
template string pushed by `analyzeAndRecommend`, with the interpolated
numbers as arguments:

* `completeProfile`: "Complete your profile to get personalized
  recommendations."
* `startLogging`: "Start logging your meals to track your calorie and macro
  intake."
* `belowTarget avg target`: "Your average daily intake (... cal) is below
  your target (... cal). Consider adding nutrient-dense snacks."
* `exceedsTarget avg target`: "Your average daily intake (... cal) exceeds
  your target (... cal). Focus on portion control and choose lower-calorie
  options."
* `alignedTarget avg`: "Great job! Your calorie intake (... cal) is aligned
  with your target."
* `increaseProtein`: "For muscle gain, increase your protein intake. ..."
* `weightIncreased delta`: "Your weight increased by ... kg. ..."
* `weightDecreased delta`: "Your weight decreased by ... kg. ..."
* `weightLossProgress delta`: "Excellent progress! You have lost ... kg. ..."
* `logWeightRegularly`: "Log your weight regularly to track progress and
  adjust your plan accordingly."
* `tipWeightLoss`, `tipMuscleGain`, `tipMaintenance`: the three goal-specific
  closing tips. -/
inductive RecMsg
  | completeProfile
  | startLogging
  | belowTarget (avg : ℚ) (target : ℚ)
  | exceedsTarget (avg : ℚ) (target : ℚ)
  | alignedTarget (avg : ℚ)
  | increaseProtein
  | weightIncreased (delta : ℚ)
  | weightDecreased (delta : ℚ)
  | weightLossProgress (delta : ℚ)
  | logWeightRegularly
  | tipWeightLoss
  | tipMuscleGain
  | tipMaintenance
  deriving DecidableEq

/-- The calorie-threshold message (part_002 lines 530-542): the else-if
chain comparing `avgDailyCalories` against `targetCalories * 0.8` and
`targetCalories * 1.2`. -/
def calorieMsg (p : UserProfile) (ms : List MealLog) : RecMsg :=
  if avgDailyCalories ms < p.daily_calorie_target * (4 / 5) then
    .belowTarget (avgDailyCalories ms) p.daily_calorie_target
  else if avgDailyCalories ms > p.daily_calorie_target * (6 / 5) then
    .exceedsTarget (avgDailyCalories ms) p.daily_calorie_target
  else .alignedTarget (avgDailyCalories ms)

/-- The protein advice (part_002 lines 544-549), pushed only for
muscle-gain profiles with average daily protein below 50 g. -/
def proteinMsgs (p : UserProfile) (ms : List MealLog) : List RecMsg :=
  if avgDailyProtein ms < 50 ∧ p.goal_type = GoalType.muscle_gain then
    [.increaseProtein]
  else []

/-- The meal-derived part of the recommendation (part_002 lines 508-550):
a missing or empty meal list yields the start-logging prompt, otherwise the
calorie message followed by the optional protein advice. -/
def mealMsgs (p : UserProfile) (meals : Option (List MealLog)) : List RecMsg :=
  match meals with
  | none => [.startLogging]
  | some ms =>
      if ms.isEmpty then [.startLogging]
      else calorieMsg p ms :: proteinMsgs p ms

/-- The body of the weight block (part_002 lines 552-569): the chained
`else if` on the sign of `weightChange = weights[0].weight -
weights[1].weight`, run when at least two weight rows exist; no branch may
fire.  `weightMsgs` below supplies the dispatch on the list shape, with the
log-weight prompt for fewer than two rows. -/
def weightDeltaMsgs (p : UserProfile) (weightChange : ℚ) : List RecMsg :=
  if p.goal_type = GoalType.weight_loss ∧ weightChange > 0 then
    [.weightIncreased weightChange]
  else if p.goal_type = GoalType.muscle_gain ∧ weightChange < 0 then
    [.weightDecreased weightChange]
  else if weightChange < 0 ∧ p.goal_type = GoalType.weight_loss then
    [.weightLossProgress weightChange]
  else []

/-- Dispatch of the weight block on the shape of the weight list. -/
def weightMsgs (p : UserProfile) (weights : Option (List WeightLog)) : List RecMsg :=
  match weights with
  | some (w0 :: w1 :: _) => weightDeltaMsgs p (w0.weight - w1.weight)
  | _ => [.logWeightRegularly]

/-- The closing goal-specific tip (part_002 lines 571-583). -/
def tipMsg (p : UserProfile) : RecMsg :=
  match p.goal_type with
  | .weight_loss => .tipWeightLoss
  | .muscle_gain => .tipMuscleGain
  | .maintenance => .tipMaintenance

/-- The recommendation routine (part_002 lines 499-586).  A null profile
short-circuits to the complete-profile message; otherwise the messages are
pushed in source order: meal block, weight block, tip. -/
def analyzeAndRecommend (profile : Option UserProfile)
    (meals : Option (List MealLog)) (weights : Option (List WeightLog)) :
    List RecMsg :=
  match profile with
  | none => [.completeProfile]
  | some p => mealMsgs p meals ++ weightMsgs p weights ++ [tipMsg p]

/-- Discriminator for the below-target message. -/
def RecMsg.isBelowTarget : RecMsg → Bool
  | .belowTarget _ _ => true
  | _ => false

/-- Discriminator for the exceeds-target message. -/
def RecMsg.isExceedsTarget : RecMsg → Bool
  | .exceedsTarget _ _ => true
  | _ => false

/-- Discriminator for the aligned-with-target message. -/
def RecMsg.isAlignedTarget : RecMsg → Bool
  | .alignedTarget _ => true
  | _ => false

/-- Discriminator for the weight-increased warning. -/
def RecMsg.isWeightIncreased : RecMsg → Bool
  | .weightIncreased _ => true
  | _ => false

/-- Discriminator for the weight-decreased warning. -/
def RecMsg.isWeightDecreased : RecMsg → Bool
  | .weightDecreased _ => true
  | _ => false

/-- Discriminator for the weight-loss congratulation. -/
def RecMsg.isWeightLossProgress : RecMsg → Bool
  | .weightLossProgress _ => true
  | _ => false

/-- JS `Math.round`: the nearest integer, ties rounding toward positive
infinity, i.e. `⌊x + 1/2⌋`. -/
def jsRound (q : ℚ) : ℤ := ⌊q + 1 / 2⌋

/-- Lookup in the association-list model of the JS `Map<string, number>`;
`(caloriesByDay.get(date) || 0)` is this with default 0. -/
def mapGetD (m : List (String × ℚ)) (k : String) : ℚ :=
  ((m.find? (fun e => decide (e.1 = k))).map Prod.snd).getD 0

/-- The JS `Map.set`: overwrites the first entry with the given key in
place, otherwise appends a fresh entry at the end (insertion order). -/
def mapSet (m : List (String × ℚ)) (k : String) (v : ℚ) : List (String × ℚ) :=
  match m with
  | [] => [(k, v)]
  | e :: rest => if e.1 = k then (k, v) :: rest else e :: mapSet rest k v

/-- The calorie contribution of one meal row in `loadProgressData`
(part_002 line 291): `meal.food_items ? meal.food_items.calories *
meal.servings : 0`. -/
def mealCalories (m : MealLog) : ℚ :=
  match m.food_items with
  | some f => f.calories * m.servings
  | none => 0

/-- One iteration of the `meals.forEach` of `loadProgressData` (part_002
lines 289-293): `caloriesByDay.set(date, (caloriesByDay.get(date) || 0) +
calories)`. -/
def progressStep (m : List (String × ℚ)) (meal : MealLog) : List (String × ℚ) :=
  mapSet m (dateOf meal.logged_at) (mapGetD m (dateOf meal.logged_at) + mealCalories meal)

/-- The running map of per-day calorie totals built by `loadProgressData`. -/
def caloriesByDay (meals : List MealLog) : List (String × ℚ) :=
  meals.foldl progressStep []

/-- The `calorieData` array of `loadProgressData` (part_002 lines 295-297):
map entries to rounded totals and sort ascending by date string. -/
def calorieData (meals : List MealLog) : List (String × ℤ) :=
  ((caloriesByDay meals).map (fun e => (e.1, jsRound e.2))).mergeSort
    (fun a b => decide (a.1 ≤ b.1))

/-- The sum the specification ascribes to one date: total calories of the
meals logged on that date, a meal with no joined food item contributing 0. -/
def dayTotal (meals : List MealLog) (d : String) : ℚ :=
  ((meals.filter (fun m => decide (dateOf m.logged_at = d))).map mealCalories).sum

/-- Timestamps are modelled as rational numbers of seconds; a calendar day
spans 86400 seconds from its midnight.  The dashboard query
(part_000 lines 40-46) filters `logged_at >= today` (midnight) and
`logged_at < todayT23:59:59`, i.e. strictly before `dayStart + 86399`. -/
def dashboardIncludes (dayStart t : ℚ) : Bool :=
  decide (dayStart ≤ t) && decide (t < dayStart + 86399)

/-- Modelled from the spec claim: a filter covering the full calendar day,
from 00:00:00 inclusive up to but not including the next midnight
(`dayStart + 86400`). -/
def fullDayIncludes (dayStart t : ℚ) : Bool :=
  decide (dayStart ≤ t) && decide (t < dayStart + 86400)

/-- An opaque backend failure: the `error` object a supabase call may
return. -/
structure DbError where
  message : String
  deriving DecidableEq

/-- Component state of WeightTracking: the two form fields, the displayed
list and the loading flag. -/
structure WeightState where
  weight : String
  date : String
  weightLogs : List WeightLog
  loading : Bool
  deriving DecidableEq

/-- The net state transition of `WeightTracking.handleSubmit`
(WeightTracking.tsx lines 30-52), parameterised by the backend response to
the single insert and by the reload result.  On error the catch logs and
the finally clause resets `loading`; on success the fields reset, today's
date is restored and the list reloads (when the reload returns data). -/
def handleSubmitWeight (user : Option String) (s : WeightState) (todayStr : String)
    (insertResult : Option DbError) (reloaded : Option (List WeightLog)) : WeightState :=
  match user with
  | none => s
  | some _ =>
      match insertResult with
      | some _ => { s with loading := false }
      | none =>
          { weight := ""
            date := todayStr
            weightLogs := reloaded.getD s.weightLogs
            loading := false }

/-- The net state transition of `WeightTracking.handleDelete` (lines
54-66): no loading flag is involved; on error nothing changes. -/
def handleDeleteWeight (s : WeightState) (deleteResult : Option DbError)
    (reloaded : Option (List WeightLog)) : WeightState :=
  match deleteResult with
  | some _ => s
  | none => { s with weightLogs := reloaded.getD s.weightLogs }

/-- Component state of MealLogging: search term, selected food, servings,
category, the displayed list and the loading flag. -/
structure MealState where
  searchTerm : String
  selectedFood : Option FoodItem
  servings : ℚ
  category : MealCategory
  mealLogs : List MealLog
  loading : Bool
  deriving DecidableEq

/-- The net state transition of `MealLogging.handleLogMeal` (part_002
lines 63-89): early return without a user or selected food; on error only
the loading flag resets; on success the form resets and the list reloads. -/
def handleLogMeal (user : Option String) (s : MealState)
    (insertResult : Option DbError) (reloaded : Option (List MealLog)) : MealState :=
  match user, s.selectedFood with
  | some _, some _ =>
      match insertResult with
      | some _ => { s with loading := false }
      | none =>
          { s with
            selectedFood := none
            servings := 1
            searchTerm := ""
            mealLogs := reloaded.getD s.mealLogs
            loading := false }
  | _, _ => s

/-- The net state transition of `MealLogging.handleDeleteMeal` (part_002
lines 91-105). -/
def handleDeleteMeal (s : MealState) (deleteResult : Option DbError)
    (reloaded : Option (List MealLog)) : MealState :=
  match deleteResult with
  | some _ => s
  | none => { s with mealLogs := reloaded.getD s.mealLogs }

/-- The `Measurement` interface of `src/lib/supabase.ts`. -/
structure Measurement where
  id : String
  user_id : String
  date : String
  waist : Option ℚ
  chest : Option ℚ
  arms : Option ℚ
  hips : Option ℚ
  thighs : Option ℚ
  created_at : String
  deriving DecidableEq

/-- The form fields of MeasurementTracking (part_001 lines 10-17), all
held as strings. -/
structure MeasurementForm where
  date : String
  waist : String
  chest : String
  arms : String
  hips : String
  thighs : String
  deriving DecidableEq

/-- Component state of MeasurementTracking. -/
structure MeasurementState where
  formData : MeasurementForm
  measurements : List Measurement
  loading : Bool
  deriving DecidableEq

/-- The net state transition of `MeasurementTracking.handleSubmit`
(part_001 lines 36-68): on error only the loading flag resets; on success
the form resets to today's date with empty fields and the list reloads. -/
def handleSubmitMeasurement (user : Option String) (s : MeasurementState)
    (todayStr : String) (insertResult : Option DbError)
    (reloaded : Option (List Measurement)) : MeasurementState :=
  match user with
  | none => s
  | some _ =>
      match insertResult with
      | some _ => { s with loading := false }
      | none =>
          { formData := ⟨todayStr, "", "", "", "", ""⟩
            measurements := reloaded.getD s.measurements
            loading := false }

/-- The net state transition of `MeasurementTracking.handleDelete`
(part_001 lines 70-82). -/
def handleDeleteMeasurement (s : MeasurementState) (deleteResult : Option DbError)
    (reloaded : Option (List Measurement)) : MeasurementState :=
  match deleteResult with
  | some _ => s
  | none => { s with measurements := reloaded.getD s.measurements }

/-- A row of one of the per-user tables (`meal_logs`, `weight_logs`,
`measurements`): a `user_id` column plus the remaining columns, abstracted
as `payload`. -/
structure OwnedRow (α : Type) where
  user_id : String
  payload : α
  deriving DecidableEq

/-- Insert under the row-level-security policy `WITH CHECK (auth.uid() =
user_id)` declared for `meal_logs`, `weight_logs` and `measurements` in the
migration: the row is appended exactly when the caller's identity equals
the row's `user_id`, otherwise the insert is rejected. -/
def rlsInsert {α : Type} (caller : String) (db : List (OwnedRow α))
    (r : OwnedRow α) : Option (List (OwnedRow α)) :=
  if caller = r.user_id then some (db ++ [r]) else none

/-- Select under the policy `USING (auth.uid() = user_id)`: only rows owned
by the caller are visible. -/
def rlsSelect {α : Type} (caller : String) (db : List (OwnedRow α)) :
    List (OwnedRow α) :=
  db.filter (fun r => decide (caller = r.user_id))

/-- Folding the aggregation over the meal list ignores exactly the meals
without a joined food item, whatever the starting accumulator. -/
theorem foldl_aggStep_filter (ms : List MealLog) (a : Aggregates) :
    ms.foldl aggStep a = (ms.filter (fun m => m.food_items.isSome)).foldl aggStep a := by
  induction ms generalizing a with
  | nil => rfl
  | cons x xs ih =>
      cases hx : x.food_items with
      | none =>
          have hstep : aggStep a x = a := by simp [aggStep, hx]
          simp [List.filter_cons, hx, hstep, ih]
      | some f =>
          simp only [List.filter_cons, hx, Option.isSome_some, List.foldl_cons]
          exact ih (aggStep a x)

/-- C9: with a null profile, `analyzeAndRecommend` returns the
complete-profile prompt alone, whatever the meal and weight lists. -/
theorem claim_C9 (meals : Option (List MealLog)) (weights : Option (List WeightLog)) :
    analyzeAndRecommend none meals weights = [RecMsg.completeProfile] := rfl

/-- C2: `analyzeAndRecommend` is a pure function of its three arguments:
equal profiles, meal lists and weight lists yield an identical
recommendation. -/
theorem claim_C2 (p₁ p₂ : Option UserProfile) (m₁ m₂ : Option (List MealLog))
    (w₁ w₂ : Option (List WeightLog)) (hp : p₁ = p₂) (hm : m₁ = m₂) (hw : w₁ = w₂) :
    analyzeAndRecommend p₁ m₁ w₁ = analyzeAndRecommend p₂ m₂ w₂ := by
  rw [hp, hm, hw]

/-- Witness for C2 at concrete equal arguments. -/
theorem claim_C2_witness :
    analyzeAndRecommend none none none = analyzeAndRecommend none none none :=
  claim_C2 none none none none none none rfl rfl rfl

/-- C10: `analyzeAndRecommend` always returns at least one message, the
divisor of both averages is positive, and meals without a joined food item
are excluded from all four totals and from the set of logged days. -/
theorem claim_C10 (profile : Option UserProfile) (meals : Option (List MealLog))
    (weights : Option (List WeightLog)) (ms : List MealLog) :
    analyzeAndRecommend profile meals weights ≠ [] ∧
    0 < daysDivisor ms ∧
    aggregate ms = aggregate (ms.filter (fun m => m.food_items.isSome)) := by
  refine ⟨?_, ?_, ?_⟩
  · cases profile with
    | none => simp [analyzeAndRecommend]
    | some p => simp [analyzeAndRecommend]
  · have h1 : (1 : ℕ) ≤ max (aggregate ms).daysLogged.length 1 := le_max_right _ _
    unfold daysDivisor
    exact_mod_cast lt_of_lt_of_le Nat.zero_lt_one h1
  · exact foldl_aggStep_filter ms _

/-- C7: on a backend error every submit handler leaves the form fields and
the displayed list exactly as they were, resetting only the loading flag,
and every delete handler leaves the state untouched. -/
theorem claim_C7 (u : String) (e : DbError) (todayStr : String)
    (sw : WeightState) (rw : Option (List WeightLog))
    (sm : MealState) (food : FoodItem) (rm : Option (List MealLog))
    (sx : MeasurementState) (rx : Option (List Measurement)) :
    handleSubmitWeight (some u) sw todayStr (some e) rw = { sw with loading := false } ∧
    handleLogMeal (some u) { sm with selectedFood := some food } (some e) rm =
      { sm with selectedFood := some food, loading := false } ∧
    handleSubmitMeasurement (some u) sx todayStr (some e) rx = { sx with loading := false } ∧
    handleDeleteWeight sw (some e) rw = sw ∧
    handleDeleteMeal sm (some e) rm = sm ∧
    handleDeleteMeasurement sx (some e) rx = sx :=
  ⟨rfl, rfl, rfl, rfl, rfl, rfl⟩

/-- With a non-empty meal list the meal block is the calorie message
followed by the optional protein advice. -/
theorem mealMsgs_of_ne_nil (p : UserProfile) (ms : List MealLog) (h : ms ≠ []) :
    mealMsgs p (some ms) = calorieMsg p ms :: proteinMsgs p ms := by
  cases ms with
  | nil => exact absurd rfl h
  | cons x xs => rfl

/-- With a non-empty meal list the whole recommendation decomposes into the
calorie message, the protein advice, the weight block and the tip. -/
theorem analyze_decomp (p : UserProfile) (ms : List MealLog) (h : ms ≠ [])
    (ws : Option (List WeightLog)) :
    analyzeAndRecommend (some p) (some ms) ws =
      calorieMsg p ms :: (proteinMsgs p ms ++ (weightMsgs p ws ++ [tipMsg p])) := by
  show mealMsgs p (some ms) ++ weightMsgs p ws ++ [tipMsg p] = _
  rw [mealMsgs_of_ne_nil p ms h]
  simp

/-- The calorie message is always one of its three constructors. -/
theorem calorieMsg_sub (p : UserProfile) (ms : List MealLog) :
    (∃ a t, calorieMsg p ms = RecMsg.belowTarget a t) ∨
    (∃ a t, calorieMsg p ms = RecMsg.exceedsTarget a t) ∨
    (∃ a, calorieMsg p ms = RecMsg.alignedTarget a) := by
  unfold calorieMsg
  split
  · exact Or.inl ⟨_, _, rfl⟩
  · split
    · exact Or.inr (Or.inl ⟨_, _, rfl⟩)
    · exact Or.inr (Or.inr ⟨_, rfl⟩)

/-- The protein advice is empty or the single protein message. -/
theorem proteinMsgs_sub (p : UserProfile) (ms : List MealLog) :
    proteinMsgs p ms = [] ∨ proteinMsgs p ms = [RecMsg.increaseProtein] := by
  unfold proteinMsgs
  split
  · exact Or.inr rfl
  · exact Or.inl rfl

/-- The weight-delta chain yields nothing or one weight message carrying
the delta. -/
theorem weightDeltaMsgs_sub (p : UserProfile) (d : ℚ) :
    weightDeltaMsgs p d = [] ∨ weightDeltaMsgs p d = [RecMsg.weightIncreased d] ∨
    weightDeltaMsgs p d = [RecMsg.weightDecreased d] ∨
    weightDeltaMsgs p d = [RecMsg.weightLossProgress d] := by
  unfold weightDeltaMsgs
  split
  · exact Or.inr (Or.inl rfl)
  · split
    · exact Or.inr (Or.inr (Or.inl rfl))
    · split
      · exact Or.inr (Or.inr (Or.inr rfl))
      · exact Or.inl rfl

/-- The weight block is the log-weight prompt or a delta chain result. -/
theorem weightMsgs_sub (p : UserProfile) (ws : Option (List WeightLog)) :
    weightMsgs p ws = [RecMsg.logWeightRegularly] ∨
    ∃ d, weightMsgs p ws = weightDeltaMsgs p d := by
  unfold weightMsgs
  rcases ws with _ | ws
  · exact Or.inl rfl
  · rcases ws with _ | ⟨w0, ws⟩
    · exact Or.inl rfl
    · rcases ws with _ | ⟨w1, rest⟩
      · exact Or.inl rfl
      · exact Or.inr ⟨w0.weight - w1.weight, rfl⟩

/-- The tip is always one of the three goal tips. -/
theorem tipMsg_sub (p : UserProfile) :
    tipMsg p = RecMsg.tipWeightLoss ∨ tipMsg p = RecMsg.tipMuscleGain ∨
    tipMsg p = RecMsg.tipMaintenance := by
  unfold tipMsg
  split
  · exact Or.inl rfl
  · exact Or.inr (Or.inl rfl)
  · exact Or.inr (Or.inr rfl)

/-- A predicate that rejects every message the protein advice, the weight
block and the tip can produce counts zero over that tail. -/
theorem countP_tail_zero (p : UserProfile) (ms : List MealLog)
    (ws : Option (List WeightLog)) (q : RecMsg → Bool)
    (hip : q RecMsg.increaseProtein = false)
    (hlw : q RecMsg.logWeightRegularly = false)
    (hwi : ∀ d, q (RecMsg.weightIncreased d) = false)
    (hwd : ∀ d, q (RecMsg.weightDecreased d) = false)
    (hwp : ∀ d, q (RecMsg.weightLossProgress d) = false)
    (ht1 : q RecMsg.tipWeightLoss = false)
    (ht2 : q RecMsg.tipMuscleGain = false)
    (ht3 : q RecMsg.tipMaintenance = false) :
    (proteinMsgs p ms ++ (weightMsgs p ws ++ [tipMsg p])).countP q = 0 := by
  rw [List.countP_append, List.countP_append]
  have h1 : (proteinMsgs p ms).countP q = 0 := by
    rcases proteinMsgs_sub p ms with h | h <;> simp [h, List.countP_cons, hip]
  have h2 : (weightMsgs p ws).countP q = 0 := by
    rcases weightMsgs_sub p ws with h | ⟨d, h⟩
    · simp [h, List.countP_cons, hlw]
    · rw [h]
      rcases weightDeltaMsgs_sub p d with h2 | h2 | h2 | h2 <;>
        simp [h2, List.countP_cons, hwi, hwd, hwp]
  have h3 : ([tipMsg p]).countP q = 0 := by
    rcases tipMsg_sub p with h | h | h <;> simp [h, List.countP_cons, ht1, ht2, ht3]
  omega

/-- Unfolding of the non-null-profile case. -/
theorem analyze_some (p : UserProfile) (meals : Option (List MealLog))
    (ws : Option (List WeightLog)) :
    analyzeAndRecommend (some p) meals ws =
      mealMsgs p meals ++ weightMsgs p ws ++ [tipMsg p] := rfl

/-- C1 (amended): with a non-null profile and a non-empty meal list, the
below-target message appears exactly when the average is below 0.8 of the
target, the exceeds-target message exactly when the average is not below
0.8 of the target and above 1.2 of it, the aligned message exactly
otherwise, and exactly one of the three is present. -/
theorem claim_C1 (p : UserProfile) (ms : List MealLog) (hms : ms ≠ [])
    (ws : Option (List WeightLog)) :
    ((analyzeAndRecommend (some p) (some ms) ws).countP RecMsg.isBelowTarget = 1 ↔
        avgDailyCalories ms < p.daily_calorie_target * (4 / 5)) ∧
    ((analyzeAndRecommend (some p) (some ms) ws).countP RecMsg.isExceedsTarget = 1 ↔
        (¬ avgDailyCalories ms < p.daily_calorie_target * (4 / 5) ∧
          avgDailyCalories ms > p.daily_calorie_target * (6 / 5))) ∧
    ((analyzeAndRecommend (some p) (some ms) ws).countP RecMsg.isAlignedTarget = 1 ↔
        (¬ avgDailyCalories ms < p.daily_calorie_target * (4 / 5) ∧
          ¬ avgDailyCalories ms > p.daily_calorie_target * (6 / 5))) ∧
    ((analyzeAndRecommend (some p) (some ms) ws).countP RecMsg.isBelowTarget +
        (analyzeAndRecommend (some p) (some ms) ws).countP RecMsg.isExceedsTarget +
        (analyzeAndRecommend (some p) (some ms) ws).countP RecMsg.isAlignedTarget = 1) := by
  rw [analyze_decomp p ms hms ws]
  have hb := countP_tail_zero p ms ws RecMsg.isBelowTarget rfl rfl
    (fun d => rfl) (fun d => rfl) (fun d => rfl) rfl rfl rfl
  have he := countP_tail_zero p ms ws RecMsg.isExceedsTarget rfl rfl
    (fun d => rfl) (fun d => rfl) (fun d => rfl) rfl rfl rfl
  have ha := countP_tail_zero p ms ws RecMsg.isAlignedTarget rfl rfl
    (fun d => rfl) (fun d => rfl) (fun d => rfl) rfl rfl rfl
  simp only [List.countP_cons, hb, he, ha, Nat.zero_add]
  unfold calorieMsg
  by_cases h1 : avgDailyCalories ms < p.daily_calorie_target * (4 / 5)
  · simp [h1, RecMsg.isBelowTarget, RecMsg.isExceedsTarget, RecMsg.isAlignedTarget]
  · by_cases h2 : avgDailyCalories ms > p.daily_calorie_target * (6 / 5)
    · simp [h1, h2, RecMsg.isBelowTarget, RecMsg.isExceedsTarget, RecMsg.isAlignedTarget]
    · simp [h1, h2, RecMsg.isBelowTarget, RecMsg.isExceedsTarget, RecMsg.isAlignedTarget]

/-- Profile with a negative calorie target: allowed by the schema (the
column is an unconstrained integer) and by the function's signature. -/
def pNeg : UserProfile :=
  ⟨ "u1", "N", GoalType.maintenance, -10, "2025-01-01", "2025-01-01"⟩

/-- Food row with negative calories: the numeric column carries no check
constraint. -/
def foodNeg : FoodItem :=
  ⟨ "f1", "Odd", -9, 0, 0, 0, none, "2025-01-01"⟩

/-- A single logged meal of that food. -/
def mealNeg : MealLog :=
  ⟨ "m1", "u1", "f1", 1, MealCategory.breakfast, "2025-01-01T08:00:00",
    "2025-01-01", some foodNeg⟩

/-- The average over this meal list is -9. -/
theorem avg_mealNeg : avgDailyCalories [mealNeg] = -9 := by
  simp [avgDailyCalories, daysDivisor, aggregate, aggStep, mealNeg, foodNeg, addDay]

/-- Counterexample for C1: with target -10 the average -9 is above 1.2
times the target (-12), yet the recommendation does not contain the
exceeds-target message (the average is also below 0.8 times the target,
-8, and the else-if chain emits only the below-target message). -/
theorem claim_C1_counterexample :
    avgDailyCalories [mealNeg] > pNeg.daily_calorie_target * (6 / 5) ∧
    (analyzeAndRecommend (some pNeg) (some [mealNeg]) none).countP
      RecMsg.isExceedsTarget = 0 := by
  constructor
  · rw [avg_mealNeg]
    norm_num [pNeg]
  · have hlt : avgDailyCalories [mealNeg] < pNeg.daily_calorie_target * (4 / 5) := by
      rw [avg_mealNeg]
      norm_num [pNeg]
    have hcal : calorieMsg pNeg [mealNeg] =
        RecMsg.belowTarget (avgDailyCalories [mealNeg]) pNeg.daily_calorie_target := by
      unfold calorieMsg
      rw [if_pos hlt]
    have htail := countP_tail_zero pNeg [mealNeg] none RecMsg.isExceedsTarget rfl rfl
      (fun d => rfl) (fun d => rfl) (fun d => rfl) rfl rfl rfl
    rw [analyze_decomp pNeg [mealNeg] (List.cons_ne_nil _ _) none]
    simp [List.countP_cons, htail, hcal, RecMsg.isExceedsTarget]

/-- Witness for C1 at a concrete profile and meal list: exactly one of the
three calorie messages is present. -/
theorem claim_C1_witness :
    (analyzeAndRecommend (some pNeg) (some [mealNeg]) none).countP RecMsg.isBelowTarget +
      (analyzeAndRecommend (some pNeg) (some [mealNeg]) none).countP RecMsg.isExceedsTarget +
      (analyzeAndRecommend (some pNeg) (some [mealNeg]) none).countP RecMsg.isAlignedTarget = 1 :=
  (claim_C1 pNeg [mealNeg] (List.cons_ne_nil _ _) none).2.2.2

/-- C3: with a non-null profile the recommendation reflects the sign of
`weights[0].weight - weights[1].weight` when at least two weight rows
exist — the weight-increased warning for a weight-loss goal and positive
delta, the weight-decreased warning for a muscle-gain goal and negative
delta, the congratulation for a weight-loss goal and negative delta — and
contains the log-weight prompt when fewer than two rows exist. -/
theorem claim_C3 (p : UserProfile) (meals : Option (List MealLog))
    (ws : List WeightLog) :
    (∀ w0 w1 rest, ws = w0 :: w1 :: rest →
      ((p.goal_type = GoalType.weight_loss → w0.weight - w1.weight > 0 →
          RecMsg.weightIncreased (w0.weight - w1.weight) ∈
            analyzeAndRecommend (some p) meals (some ws)) ∧
       (p.goal_type = GoalType.muscle_gain → w0.weight - w1.weight < 0 →
          RecMsg.weightDecreased (w0.weight - w1.weight) ∈
            analyzeAndRecommend (some p) meals (some ws)) ∧
       (p.goal_type = GoalType.weight_loss → w0.weight - w1.weight < 0 →
          RecMsg.weightLossProgress (w0.weight - w1.weight) ∈
            analyzeAndRecommend (some p) meals (some ws)))) ∧
    (ws.length < 2 →
      RecMsg.logWeightRegularly ∈ analyzeAndRecommend (some p) meals (some ws)) := by
  constructor
  · rintro w0 w1 rest rfl
    have hmem : ∀ x ∈ weightMsgs p (some (w0 :: w1 :: rest)),
        x ∈ analyzeAndRecommend (some p) meals (some (w0 :: w1 :: rest)) := by
      intro x hx
      rw [analyze_some]
      exact List.mem_append_left _ (List.mem_append_right _ hx)
    have hw : weightMsgs p (some (w0 :: w1 :: rest)) =
        weightDeltaMsgs p (w0.weight - w1.weight) := rfl
    refine ⟨?_, ?_, ?_⟩
    · intro hg hd
      apply hmem
      rw [hw]
      unfold weightDeltaMsgs
      rw [if_pos ⟨hg, hd⟩]
      simp
    · intro hg hd
      apply hmem
      rw [hw]
      have h1 : ¬ (p.goal_type = GoalType.weight_loss ∧ w0.weight - w1.weight > 0) := by
        rintro ⟨h1, _⟩
        exact GoalType.noConfusion (hg.symm.trans h1)
      unfold weightDeltaMsgs
      rw [if_neg h1, if_pos ⟨hg, hd⟩]
      simp
    · intro hg hd
      apply hmem
      rw [hw]
      have h1 : ¬ (p.goal_type = GoalType.weight_loss ∧ w0.weight - w1.weight > 0) := by
        rintro ⟨_, hpos⟩
        exact lt_asymm hd hpos
      have h2 : ¬ (p.goal_type = GoalType.muscle_gain ∧ w0.weight - w1.weight < 0) := by
        rintro ⟨hgg, _⟩
        exact GoalType.noConfusion (hg.symm.trans hgg)
      unfold weightDeltaMsgs
      rw [if_neg h1, if_neg h2, if_pos ⟨hd, hg⟩]
      simp
  · intro hlen
    have hw : weightMsgs p (some ws) = [RecMsg.logWeightRegularly] := by
      match ws, hlen with
      | [], _ => rfl
      | [w], _ => rfl
    rw [analyze_some]
    exact List.mem_append_left _ (List.mem_append_right _ (by rw [hw]; simp))

/-- Witness for C3: with an empty weight list the log-weight prompt is
present. -/
theorem claim_C3_witness :
    RecMsg.logWeightRegularly ∈ analyzeAndRecommend (some pNeg) none (some []) :=
  (claim_C3 pNeg none []).2 (by decide)

/-- C4: with a non-null profile and a non-empty meal list the
protein-increase advice is present exactly when the average daily protein
is below 50 g and the goal is muscle gain. -/
theorem claim_C4 (p : UserProfile) (ms : List MealLog) (hms : ms ≠ [])
    (ws : Option (List WeightLog)) :
    RecMsg.increaseProtein ∈ analyzeAndRecommend (some p) (some ms) ws ↔
      (avgDailyProtein ms < 50 ∧ p.goal_type = GoalType.muscle_gain) := by
  rw [analyze_decomp p ms hms ws]
  have hcal : RecMsg.increaseProtein ≠ calorieMsg p ms := by
    rcases calorieMsg_sub p ms with ⟨a, t, h⟩ | ⟨a, t, h⟩ | ⟨a, h⟩ <;> rw [h] <;> simp
  have hwm : RecMsg.increaseProtein ∉ weightMsgs p ws := by
    rcases weightMsgs_sub p ws with h | ⟨d, h⟩
    · rw [h]; simp
    · rw [h]
      rcases weightDeltaMsgs_sub p d with h2 | h2 | h2 | h2 <;> rw [h2] <;> simp
  have htip : RecMsg.increaseProtein ≠ tipMsg p := by
    rcases tipMsg_sub p with h | h | h <;> rw [h] <;> simp
  by_cases hc : avgDailyProtein ms < 50 ∧ p.goal_type = GoalType.muscle_gain
  · have hp2 : proteinMsgs p ms = [RecMsg.increaseProtein] := by
      unfold proteinMsgs
      rw [if_pos hc]
    simp [hp2, hc]
  · have hp2 : proteinMsgs p ms = [] := by
      unfold proteinMsgs
      rw [if_neg hc]
    simp [hp2, hc, List.mem_cons, List.mem_append, hcal, hwm, htip]

/-- Witness for C4 at a concrete profile and meal list. -/
theorem claim_C4_witness :
    RecMsg.increaseProtein ∈ analyzeAndRecommend (some pNeg) (some [mealNeg]) none ↔
      (avgDailyProtein [mealNeg] < 50 ∧ pNeg.goal_type = GoalType.muscle_gain) :=
  claim_C4 pNeg [mealNeg] (List.cons_ne_nil _ _) none

/-- Counterexample for C6: a meal logged exactly at 23:59:59 (86399 seconds
into the day) lies inside the full calendar day but is excluded by the
dashboard's range filter. -/
theorem claim_C6_counterexample :
    dashboardIncludes 0 86399 = false ∧ fullDayIncludes 0 86399 = true := by
  unfold dashboardIncludes fullDayIncludes
  constructor <;> norm_num

/-- C6 (amended): the dashboard's date-range filter covers the day from
00:00:00 inclusive up to but not including 23:59:59, so the final second of
the day is excluded. -/
theorem claim_C6 (dayStart t : ℚ) :
    dashboardIncludes dayStart t = true ↔ dayStart ≤ t ∧ t < dayStart + 86399 := by
  simp [dashboardIncludes]

/-- C8: under the declared row-level-security policies an insert succeeds
exactly when the row's `user_id` is the caller, and a row so inserted is
visible to a subsequent select by its owner but never to another user. -/
theorem claim_C8 {α : Type} (caller other : String) (db : List (OwnedRow α))
    (r : OwnedRow α) (hother : other ≠ caller) :
    ((rlsInsert caller db r).isSome ↔ r.user_id = caller) ∧
    (∀ db2, rlsInsert caller db r = some db2 →
      r ∈ rlsSelect caller db2 ∧ r ∉ rlsSelect other db2) := by
  constructor
  · unfold rlsInsert
    by_cases h : caller = r.user_id
    · simp [h]
    · simp only [if_neg h, Option.isSome_none, Bool.false_eq_true, false_iff]
      exact fun hh => h hh.symm
  · intro db2 hins
    unfold rlsInsert at hins
    by_cases h : caller = r.user_id
    · rw [if_pos h] at hins
      obtain rfl : db ++ [r] = db2 := Option.some.injEq _ _ ▸ hins
      constructor
      · refine List.mem_filter.mpr ⟨?_, by simp [h]⟩
        simp
      · intro hmem
        have := (List.mem_filter.mp hmem).2
        have hoth : other = r.user_id := by simpa using this
        exact hother (hoth.trans h.symm)
    · rw [if_neg h] at hins
      cases hins

/-- Witness for C8: Alice inserts her own row and sees it; Bob does not. -/
theorem claim_C8_witness :
    (⟨ "alice", (70 : ℚ)⟩ : OwnedRow ℚ) ∈
      rlsSelect "alice" ([] ++ [(⟨ "alice", (70 : ℚ)⟩ : OwnedRow ℚ)]) ∧
    (⟨ "alice", (70 : ℚ)⟩ : OwnedRow ℚ) ∉
      rlsSelect "bob" ([] ++ [(⟨ "alice", (70 : ℚ)⟩ : OwnedRow ℚ)]) :=
  (claim_C8 "alice" "bob" [] ⟨ "alice", (70 : ℚ)⟩ (by decide)).2
    ([] ++ [⟨ "alice", (70 : ℚ)⟩]) (by rfl)

/-- Lookup in the empty map. -/
theorem mapGetD_nil (k : String) : mapGetD [] k = 0 := rfl

/-- Lookup steps through one entry. -/
theorem mapGetD_cons (e : String × ℚ) (rest : List (String × ℚ)) (k : String) :
    mapGetD (e :: rest) k = if e.1 = k then e.2 else mapGetD rest k := by
  unfold mapGetD
  by_cases h : e.1 = k <;> simp [List.find?_cons, h]

/-- Setting a key then reading it returns the written value. -/
theorem mapGetD_mapSet_self (m : List (String × ℚ)) (k : String) (v : ℚ) :
    mapGetD (mapSet m k v) k = v := by
  induction m with
  | nil =>
      show mapGetD [(k, v)] k = v
      rw [mapGetD_cons, if_pos rfl]
  | cons e rest ih =>
      unfold mapSet
      by_cases h : e.1 = k
      · rw [if_pos h, mapGetD_cons, if_pos rfl]
      · rw [if_neg h, mapGetD_cons, if_neg h]
        exact ih

/-- Setting one key leaves every other key's value unchanged. -/
theorem mapGetD_mapSet_ne (m : List (String × ℚ)) (k : String) (v : ℚ)
    (d : String) (h : d ≠ k) : mapGetD (mapSet m k v) d = mapGetD m d := by
  have h1 : ¬ (k = d) := fun hh => h hh.symm
  induction m with
  | nil =>
      show mapGetD [(k, v)] d = mapGetD [] d
      rw [mapGetD_cons, if_neg h1]
  | cons e rest ih =>
      unfold mapSet
      by_cases he : e.1 = k
      · have h2 : ¬ (e.1 = d) := by rw [he]; exact h1
        rw [if_pos he, mapGetD_cons, mapGetD_cons, if_neg h1, if_neg h2]
      · rw [if_neg he, mapGetD_cons, mapGetD_cons]
        by_cases hd : e.1 = d
        · rw [if_pos hd, if_pos hd]
        · rw [if_neg hd, if_neg hd]
          exact ih

/-- The keys after a `set`: unchanged when the key was present, appended
otherwise. -/
theorem mapSet_keys (m : List (String × ℚ)) (k : String) (v : ℚ) :
    (mapSet m k v).map Prod.fst =
      if k ∈ m.map Prod.fst then m.map Prod.fst else m.map Prod.fst ++ [k] := by
  induction m with
  | nil => simp [mapSet]
  | cons e rest ih =>
      unfold mapSet
      by_cases he : e.1 = k
      · have hk : k ∈ (e :: rest).map Prod.fst := by
          rw [List.map_cons]
          exact he ▸ List.mem_cons_self _ _
        rw [if_pos he, if_pos hk, List.map_cons, List.map_cons, he]
      · rw [if_neg he, List.map_cons, List.map_cons, ih]
        by_cases hk : k ∈ rest.map Prod.fst
        · rw [if_pos hk, if_pos (List.mem_cons_of_mem _ hk)]
        · have hk2 : ¬ k ∈ e.1 :: rest.map Prod.fst := by
            rw [List.mem_cons]
            rintro (hh | hh)
            · exact he hh.symm
            · exact hk hh
          rw [if_neg hk, if_neg hk2]
          simp

/-- Membership in the keys after a `set`. -/
theorem mem_mapSet_keys (m : List (String × ℚ)) (k : String) (v : ℚ) (d : String) :
    d ∈ (mapSet m k v).map Prod.fst ↔ d ∈ m.map Prod.fst ∨ d = k := by
  rw [mapSet_keys]
  by_cases hk : k ∈ m.map Prod.fst
  · rw [if_pos hk]
    constructor
    · exact Or.inl
    · rintro (h | rfl)
      · exact h
      · exact hk
  · rw [if_neg hk]
    simp [List.mem_append]

/-- A `set` keeps the keys duplicate-free. -/
theorem nodup_mapSet (m : List (String × ℚ)) (k : String) (v : ℚ)
    (h : (m.map Prod.fst).Nodup) : ((mapSet m k v).map Prod.fst).Nodup := by
  rw [mapSet_keys]
  by_cases hk : k ∈ m.map Prod.fst
  · rw [if_pos hk]
    exact h
  · rw [if_neg hk]
    simp [List.nodup_append, h, hk]

/-- With duplicate-free keys, the value stored with an entry is what lookup
returns for its key. -/
theorem mapGetD_of_mem (m : List (String × ℚ)) (hnd : (m.map Prod.fst).Nodup)
    (k : String) (x : ℚ) (h : (k, x) ∈ m) : mapGetD m k = x := by
  induction m with
  | nil => cases h
  | cons e rest ih =>
      rw [List.map_cons, List.nodup_cons] at hnd
      rw [mapGetD_cons]
      rcases List.mem_cons.mp h with rfl | hmem
      · rw [if_pos rfl]
      · have hkm : k ∈ rest.map Prod.fst := List.mem_map_of_mem Prod.fst hmem
        have hne : ¬ e.1 = k := fun hh => hnd.1 (hh ▸ hkm)
        rw [if_neg hne]
        exact ih hnd.2 hmem

/-- The spec-side per-day sum over the empty list. -/
theorem dayTotal_nil (d : String) : dayTotal [] d = 0 := rfl

/-- The spec-side per-day sum unfolds one meal at a time. -/
theorem dayTotal_cons (x : MealLog) (xs : List MealLog) (d : String) :
    dayTotal (x :: xs) d =
      (if dateOf x.logged_at = d then mealCalories x else 0) + dayTotal xs d := by
  unfold dayTotal
  rw [List.filter_cons]
  by_cases h : dateOf x.logged_at = d
  · simp [h]
  · simp [h]

/-- One `forEach` iteration adds the meal's calories to its own day and to
no other. -/
theorem mapGetD_progressStep (m : List (String × ℚ)) (x : MealLog) (d : String) :
    mapGetD (progressStep m x) d =
      mapGetD m d + (if dateOf x.logged_at = d then mealCalories x else 0) := by
  unfold progressStep
  rcases eq_or_ne d (dateOf x.logged_at) with rfl | h
  · rw [mapGetD_mapSet_self, if_pos rfl]
  · have h2 : ¬ (dateOf x.logged_at = d) := fun hh => h hh.symm
    rw [mapGetD_mapSet_ne _ _ _ _ h, if_neg h2, add_zero]

/-- Invariant of the `forEach` fold of `loadProgressData`: starting from a
map with duplicate-free keys, the fold keeps keys duplicate-free, its key
set is the starting keys plus the dates of the processed meals, and each
key's value grows by that day's calorie total. -/
theorem progressFold_spec (meals : List MealLog) (m : List (String × ℚ))
    (hnd : (m.map Prod.fst).Nodup) :
    ((meals.foldl progressStep m).map Prod.fst).Nodup ∧
    (∀ d, d ∈ (meals.foldl progressStep m).map Prod.fst ↔
        d ∈ m.map Prod.fst ∨ d ∈ meals.map (fun x => dateOf x.logged_at)) ∧
    (∀ d, mapGetD (meals.foldl progressStep m) d = mapGetD m d + dayTotal meals d) := by
  induction meals generalizing m with
  | nil =>
      refine ⟨hnd, fun d => by simp, fun d => by simp [dayTotal_nil]⟩
  | cons x xs ih =>
      have hnd2 : ((progressStep m x).map Prod.fst).Nodup := nodup_mapSet _ _ _ hnd
      obtain ⟨ih1, ih2, ih3⟩ := ih (progressStep m x) hnd2
      refine ⟨ih1, ?_, ?_⟩
      · intro d
        rw [List.foldl_cons, ih2 d]
        unfold progressStep
        rw [mem_mapSet_keys]
        simp only [List.map_cons, List.mem_cons]
        tauto
      · intro d
        rw [List.foldl_cons, ih3 d, mapGetD_progressStep, dayTotal_cons]
        ring

/-- The running map of `loadProgressData` has duplicate-free keys. -/
theorem caloriesByDay_nodup (meals : List MealLog) :
    ((caloriesByDay meals).map Prod.fst).Nodup :=
  (progressFold_spec meals [] (by simp)).1

/-- The keys of the running map are exactly the dates occurring in the meal
list. -/
theorem caloriesByDay_keys (meals : List MealLog) (d : String) :
    d ∈ (caloriesByDay meals).map Prod.fst ↔
      d ∈ meals.map (fun x => dateOf x.logged_at) := by
  have h := (progressFold_spec meals [] (by simp)).2.1 d
  simpa [caloriesByDay] using h

/-- The running map stores each date's calorie total. -/
theorem caloriesByDay_getD (meals : List MealLog) (d : String) :
    mapGetD (caloriesByDay meals) d = dayTotal meals d := by
  have h := (progressFold_spec meals [] (by simp)).2.2 d
  simpa [caloriesByDay, mapGetD_nil] using h

/-- C5: the per-day calorie series of the progress view has one entry per
distinct date occurring in the meal list, each entry's value is the rounded
sum of that date's calories (a meal with no joined food item contributing
0), and the entries are sorted ascending by date. -/
theorem claim_C5 (meals : List MealLog) :
    ((calorieData meals).map Prod.fst).Nodup ∧
    (∀ d, d ∈ (calorieData meals).map Prod.fst ↔
        d ∈ meals.map (fun x => dateOf x.logged_at)) ∧
    (∀ d v, (d, v) ∈ calorieData meals → v = jsRound (dayTotal meals d)) ∧
    List.Pairwise (fun a b : String × ℤ => a.1 ≤ b.1) (calorieData meals) := by
  have hperm : List.Perm (calorieData meals)
      ((caloriesByDay meals).map (fun e => (e.1, jsRound e.2))) :=
    List.mergeSort_perm _ _
  have hcomp : (Prod.fst ∘ fun e : String × ℚ => (e.1, jsRound e.2)) = Prod.fst := rfl
  have hkeys : List.Perm ((calorieData meals).map Prod.fst)
      ((caloriesByDay meals).map Prod.fst) := by
    have h2 := hperm.map Prod.fst
    rw [List.map_map, hcomp] at h2
    exact h2
  refine ⟨?_, ?_, ?_, ?_⟩
  · exact hkeys.nodup_iff.mpr (caloriesByDay_nodup meals)
  · intro d
    rw [hkeys.mem_iff]
    exact caloriesByDay_keys meals d
  · intro d v hmem
    have hmem2 : (d, v) ∈ (caloriesByDay meals).map (fun e => (e.1, jsRound e.2)) :=
      hperm.mem_iff.mp hmem
    obtain ⟨e, he, heq⟩ := List.mem_map.mp hmem2
    have h1 : e.1 = d := congrArg Prod.fst heq
    have h2 : jsRound e.2 = v := congrArg Prod.snd heq
    have h3 : mapGetD (caloriesByDay meals) e.1 = e.2 :=
      mapGetD_of_mem _ (caloriesByDay_nodup meals) e.1 e.2 (Prod.mk.eta ▸ he)
    have h4 : e.2 = dayTotal meals e.1 := by
      rw [← caloriesByDay_getD meals e.1, h3]
    rw [← h1, ← h2, h4]
  · have htrans : ∀ a b c : String × ℤ,
        decide (a.1 ≤ b.1) → decide (b.1 ≤ c.1) → decide (a.1 ≤ c.1) := by
      intro a b c hab hbc
      simp only [decide_eq_true_eq] at hab hbc ⊢
      exact le_trans hab hbc
    have htotal : ∀ a b : String × ℤ,
        (decide (a.1 ≤ b.1) || decide (b.1 ≤ a.1)) = true := by
      intro a b
      simp only [Bool.or_eq_true, decide_eq_true_eq]
      exact le_total _ _
    have hs := List.sorted_mergeSort htrans htotal
      ((caloriesByDay meals).map (fun e => (e.1, jsRound e.2)))
    exact hs.imp (fun h => by simpa using h)

/-- Sample food row for the progress-view witness. -/
def foodW : FoodItem := ⟨ "f2", "Rice", 100, 5, 20, 1, none, "2025-01-01"⟩

/-- Sample meal row: two servings of that food on 2025-01-02. -/
def mealW : MealLog :=
  ⟨ "m2", "u1", "f2", 2, MealCategory.lunch, "2025-01-02T12:00:00",
    "2025-01-02", some foodW⟩

/-- The series for the single sample meal is one entry of 200 calories. -/
theorem calorieData_mealW : calorieData [mealW] = [( "2025-01-02", 200)] := by
  have hd : dateOf ( "2025-01-02T12:00:00") = "2025-01-02" := by decide
  have hcbd : caloriesByDay [mealW] = [( "2025-01-02", 200)] := by
    simp [caloriesByDay, progressStep, mapSet, mapGetD, mealCalories, mealW, foodW, hd]
    norm_num
  have hj : jsRound 200 = 200 := by
    unfold jsRound
    norm_num
  simp [calorieData, hcbd, List.mergeSort_singleton, hj]

/-- Witness for C5: the sample entry is in the series and its value is the
rounded day total. -/
theorem claim_C5_witness :
    ( "2025-01-02", (200 : ℤ)) ∈ calorieData [mealW] ∧
    (200 : ℤ) = jsRound (dayTotal [mealW] "2025-01-02") := by
  have hmem : ( "2025-01-02", (200 : ℤ)) ∈ calorieData [mealW] := by
    rw [calorieData_mealW]
    simp
  exact ⟨hmem, (claim_C5 [mealW]).2.2.1 "2025-01-02" 200 hmem⟩

end FitTrack
